import Mathlib

set_option maxHeartbeats 1000000

/-!
Shallow embedding of `nielsen.py` (Nielsen reduction for free groups).

A Python `Word` stores a list of string labels (`Word._word`), so a word is
modelled as `List String`.  Python values that flow through the algebra are
either `Word` instances or the `int` `0` (which `sum` over an empty sequence
produces inside `PyFreeGroup.inverse`), so runtime values are modelled by
`PyVal`.  Fallible Python operations are modelled in `Except PyErr`, with one
constructor of `PyErr` for each Python exception class that a modelled
operation can raise.  `PyErr.preconditionViolation` has no counterpart in the
source; it names the error kind that the specification's error catalog
attributes to `nielsen_reduced`, and nothing in the code raises it.
-/

/-- Exception kinds for the embedding.  `typeError`, `keyError`,
`attributeError` and `indexError` model the Python builtins of the same
names.  `preconditionViolation` models the spec's "PreconditionViolation"
error kind; no operation of the source ever produces it. -/
inductive PyErr where
  | typeError
  | keyError
  | attributeError
  | indexError
  | preconditionViolation
  deriving DecidableEq

/-- A Python value produced by the free-group algebra: a `Word` (its list of
symbol labels, mirroring `Word._word`), or an `int` (arising only as the `0`
that Python's `sum` returns over an empty sequence, in `PyFreeGroup.inverse`
applied to the empty word, nielsen.py lines 99-100). -/
inductive PyVal where
  | word (w : List String)
  | intv (n : Int)
  deriving DecidableEq

instance {e a : Type} [DecidableEq e] [DecidableEq a] : DecidableEq (Except e a) := fun x y =>
  match x, y with
  | .ok u, .ok v =>
    if h : u = v then .isTrue (by rw [h])
    else .isFalse (by intro hc; injection hc; exact h (by assumption))
  | .error u, .error v =>
    if h : u = v then .isTrue (by rw [h])
    else .isFalse (by intro hc; injection hc; exact h (by assumption))
  | .ok _, .error _ => .isFalse (by intro hc; exact Except.noConfusion hc)
  | .error _, .ok _ => .isFalse (by intro hc; exact Except.noConfusion hc)

/-- The state a `PyFreeGroup` is constructed from (nielsen.py lines 41-63): the
labels of the length-one generator `Word`s, and the label of the length-one
identity `Word`. -/
structure PyFreeGroup where
  gens : List String
  identity : String

/-- The generator set after the constructor has ensured that the identity
belongs to it (nielsen.py lines 60-61). -/
def PyFreeGroup.allGens (F : PyFreeGroup) : List String :=
  if F.identity ∈ F.gens then F.gens else F.gens ++ [F.identity]

/-- Lookup in the `_inverses` dictionary built by `_generate_inverses`
(nielsen.py lines 68-80): every generator `x` maps to a fresh symbol labelled
`x + "^{-1}"`, the identity maps to itself (overwriting its fresh symbol),
and the mapping is completed with the reverse pairs.  The dictionary content
is deterministic under the constructor's documented requirement that the
generator labels are pairwise distinct and that no generator is itself the
synthesized inverse of another (the docstring of `__init__`, lines 52-55,
forbids passing inverses); under that requirement the final dictionary is
exactly the one realized by this case analysis. -/
def PyFreeGroup.invLookup (F : PyFreeGroup) (x : String) : Option String :=
  if x = F.identity then some F.identity
  else if x ∈ F.allGens then some (x ++ "^{-1}")
  else F.allGens.find? fun g => g != F.identity && x == g ++ "^{-1}"

/-- `PyFreeGroup.inverse` (nielsen.py lines 95-100).  For a length-one word it
is a dictionary lookup (`KeyError` when the symbol is unknown).  For any
other word the source evaluates `sum(self.inverse(...) for x in
reversed(word))`: `Word.__reversed__` (line 183) yields the raw label
strings of `_word`, so for a word of length at least two the first generator
element evaluates `x.label` on a `str` and raises `AttributeError`; for the
empty word the generator is empty and `sum` returns the `int` `0`. -/
def PyFreeGroup.inverseW (F : PyFreeGroup) (w : List String) : Except PyErr PyVal :=
  match w with
  | [x] =>
    match F.invLookup x with
    | some y => .ok (.word [y])
    | none => .error .keyError
  | [] => .ok (.intv 0)
  | _ :: _ :: _ => .error .attributeError

/-- The Python `+` applied to two values produced by the algebra.
`Word.__add__` (nielsen.py line 162) concatenates label lists; given an
`int` right operand it evaluates `other._word` and raises `AttributeError`.
`int + int` is ordinary addition, and `int + Word` raises `TypeError`
because `int.__add__` returns `NotImplemented` and `Word` defines no
`__radd__`. -/
def pyAdd : PyVal → PyVal → Except PyErr PyVal
  | .word a, .word b => .ok (.word (a ++ b))
  | .intv a, .intv b => .ok (.intv (a + b))
  | .word _, .intv _ => .error .attributeError
  | .intv _, .word _ => .error .typeError

/-- `PyFreeGroup.power` (nielsen.py lines 102-114): negative exponents recurse
on the inverse, exponent `0` gives the identity word, exponent `1` gives the
argument, and larger exponents split by halving.  The division is reached
only for `n ≥ 2`, where Lean's `Int` division agrees with Python's floor
division `exp // 2`.  The first recursive summand is evaluated first, so its
error is the one propagated. -/
def PyFreeGroup.power (F : PyFreeGroup) (v : PyVal) (n : Int) : Except PyErr PyVal :=
  if hneg : n < 0 then
    match v with
    | .word w =>
      match F.inverseW w with
      | .ok vinv => F.power vinv (-n)
      | .error e => .error e
    | .intv _ => .error .typeError
  else if hz : n = 0 then .ok (.word [F.identity])
  else if ho : n = 1 then .ok v
  else
    match F.power v (n / 2), F.power v (n - n / 2) with
    | .ok a, .ok b => pyAdd a b
    | .error e, _ => .error e
    | .ok _, .error e => .error e
termination_by n.natAbs + (if n < 0 then 1 else 0)
decreasing_by
  · rw [if_pos hneg, if_neg (by omega : ¬(-n < 0))]; omega
  · rw [if_neg (by omega : ¬(n / 2 < 0)), if_neg hneg]; omega
  · rw [if_neg (by omega : ¬(n - n / 2 < 0)), if_neg hneg]; omega

/-- The literal `n`-fold repetition of a word, used to state what
`PyFreeGroup.power` computes for positive exponents. -/
def wordRepeat : Nat → List String → List String
  | 0, _ => []
  | n + 1, w => w ++ wordRepeat n w

/-- One pass of the scan inside `freely_reduced` (nielsen.py lines 252-256):
find the first index `i` with `F.inverse(word[i]) == word[i+1]`, and return
the word with that adjacent pair deleted, or `none` when no pair cancels.
The left symbol of each inspected pair is looked up in the inverse
dictionary, raising `KeyError` for an unknown symbol; the final symbol of
the word is never looked up. -/
def scanCancel (F : PyFreeGroup) : List String → Except PyErr (Option (List String))
  | [] => .ok none
  | [_] => .ok none
  | x :: y :: rest =>
    match F.invLookup x with
    | none => .error .keyError
    | some xi =>
      if xi = y then .ok (some rest)
      else
        match scanCancel F (y :: rest) with
        | .ok none => .ok none
        | .ok (some tail) => .ok (some (x :: tail))
        | .error e => .error e

/-- The `while modified` loop of `freely_reduced` (nielsen.py lines
249-256): rescan from the start after every cancellation, until a full scan
finds no adjacent inverse pair. -/
def reduceLoop (F : PyFreeGroup) (w : List String) : Except PyErr (List String) :=
  match h : scanCancel F w with
  | .error e => .error e
  | .ok none => .ok w
  | .ok (some w2) => reduceLoop F w2
termination_by w.length
decreasing_by
  have key : ∀ (u u2 : List String), scanCancel F u = .ok (some u2) → u2.length + 2 = u.length := by
    intro u
    induction u with
    | nil => intro u2 hu; simp [scanCancel] at hu
    | cons x tail ih =>
      intro u2 hu
      cases tail with
      | nil => simp [scanCancel] at hu
      | cons y rest =>
        rw [scanCancel] at hu
        split at hu
        · simp at hu
        · split at hu
          · simp at hu
            subst hu
            simp
          · split at hu
            · simp at hu
            · rename_i tail2 heq
              simp at hu
              have htl := ih tail2 heq
              subst hu
              simp at htl ⊢
              omega
            · simp at hu
  have hlen := key w w2 h
  omega

/-- `strip_identities` (nielsen.py lines 220-231).  The source evaluates
`reduce(op.add, (c for c in word if c != F.identity))` with no initial
value: when every symbol equals the identity the sequence is empty and
`functools.reduce` raises `TypeError`; otherwise the result is the
concatenation of the surviving length-one words, i.e. the filtered label
list, whose length is then necessarily positive, making the
`len(new_symbols) == 0` branch (line 228) unreachable. -/
def stripIdentities (F : PyFreeGroup) (w : List String) : Except PyErr (List String) :=
  let kept := w.filter fun c => c != F.identity
  if kept = [] then .error .typeError
  else if kept.length = 0 then .ok [F.identity]
  else .ok kept

/-- `freely_reduced` (nielsen.py lines 240-259): run the cancellation loop,
return the identity when the result is empty, and otherwise strip identity
symbols from the result. -/
def freelyReduced (F : PyFreeGroup) (w : List String) : Except PyErr (List String) :=
  match reduceLoop F w with
  | .error e => .error e
  | .ok w2 => if w2.length = 0 then .ok [F.identity] else stripIdentities F w2

/-- `halves` (nielsen.py lines 209-217): split at `len(word) // 2`.  The
source only slices, which cannot fail for any length, so the function is
total; for odd lengths the first part is one symbol shorter than the
second. -/
def halves (w : List String) : List String × List String :=
  (w.take (w.length / 2), w.drop (w.length / 2))

/-- Argument passed to Python's `str.startswith` and `str.endswith`: either
an actual `str`, or a `Word` instance (which is what every call site of
`Word.startswith` and `Word.endswith` in the source passes). -/
inductive StrOrWord where
  | pystr (s : String)
  | pyword (w : List String)
  deriving DecidableEq

/-- Python's `str.startswith`: a `str` argument is a genuine string-prefix
test, while any other argument (in particular a `Word`) raises
`TypeError` before any comparison. -/
def strStartsCheck (s : String) : StrOrWord → Except PyErr Bool
  | .pystr p => .ok (s.startsWith p)
  | .pyword _ => .error .typeError

/-- Python's `str.endswith`, analogous to `strStartsCheck`. -/
def strEndsCheck (s : String) : StrOrWord → Except PyErr Bool
  | .pystr p => .ok (s.endsWith p)
  | .pyword _ => .error .typeError

/-- `Word.startswith` (nielsen.py lines 196-200): the source computes
`''.join(self._word)` (always succeeds) and then calls `str.startswith`
on it with the given argument. -/
def wordStartswith (w : List String) (p : StrOrWord) : Except PyErr Bool :=
  strStartsCheck (String.join w) p

/-- `Word.endswith` (nielsen.py lines 202-206), analogous to
`wordStartswith`. -/
def wordEndswith (w : List String) (s : StrOrWord) : Except PyErr Bool :=
  strEndsCheck (String.join w) s

/-- `Word.__getitem__` (nielsen.py lines 176-177) applied to an `int` key:
Python list indexing returns the element at `i` (offset by `len` for
negative `i` in range) wrapped in a new length-one `Word`, and raises
`IndexError` outside `-len ≤ i < len`. -/
def wordGetItem (w : List String) (i : Int) : Except PyErr (List String) :=
  if i < -(w.length : Int) ∨ (w.length : Int) ≤ i then .error .indexError
  else
    match w[(if i < 0 then i + (w.length : Int) else i).toNat]? with
    | some s => .ok [s]
    | none => .error .indexError

/-- `nielsen_reduced` (nielsen.py lines 262-361).  Phase 1 (lines 286-287)
evaluates `freely_reduced(u)` for each `u` in `U`, passing a single argument
to a function whose signature is `freely_reduced(F, word)`; for a non-empty
`U` Python therefore raises `TypeError` ("missing 1 required positional
argument") at the first element, before any other work of the function runs.
For an empty `U` the comprehension yields the empty set `V`, Phase 2 finds
no pairs (`itertools.permutations` of an empty set is empty), Phase 3 finds
no candidate `u_j`, and the empty set is returned (modelled as `[]`). -/
def nielsenReduced (F : PyFreeGroup) (U : List (List String)) : Except PyErr (List (List String)) :=
  match U with
  | [] => .ok []
  | _ :: _ => .error .typeError

/-- The expression `freely_reduced(F, w + F.power(w, -1))` used by
`test_power` (test_nielsen.py line 108) and by the spec's power laws,
with Python's evaluation order: the power is computed first, `Word.__add__`
then raises `AttributeError` when the power produced the `int` `0`, and
otherwise the concatenation is freely reduced. -/
def negPowCancel (F : PyFreeGroup) (w : List String) : Except PyErr (List String) :=
  match F.power (.word w) (-1) with
  | .error e => .error e
  | .ok (.intv _) => .error .attributeError
  | .ok (.word p) => freelyReduced F (w ++ p)

/-- The free group used by the concrete evaluations below: generators
`a, b, c, e` with identity `e`, as in `test_nielsen.py`. -/
def Fabce : PyFreeGroup := ⟨["a", "b", "c", "e"], "e"⟩

/-!
Helper lemmas about the recursive definitions, followed by the theorems
settling the specification claims C1-C10.
-/

/-- Unfolding `reduceLoop` when the scan raises an exception. -/
theorem reduceLoop_error {F : PyFreeGroup} {w : List String} {e : PyErr}
    (h : scanCancel F w = .error e) : reduceLoop F w = .error e := by
  unfold reduceLoop
  split
  · rename_i e2 heq
    rw [h] at heq
    injection heq with h2
    rw [h2]
  · rename_i heq
    rw [h] at heq
    simp at heq
  · rename_i w2 heq
    rw [h] at heq
    simp at heq

/-- Unfolding `reduceLoop` when no adjacent inverse pair remains. -/
theorem reduceLoop_none {F : PyFreeGroup} {w : List String}
    (h : scanCancel F w = .ok none) : reduceLoop F w = .ok w := by
  unfold reduceLoop
  split
  · rename_i e2 heq
    rw [h] at heq
    simp at heq
  · rfl
  · rename_i w2 heq
    rw [h] at heq
    simp at heq

/-- Unfolding `reduceLoop` when a pair cancels: the loop restarts on the
shortened word. -/
theorem reduceLoop_some {F : PyFreeGroup} {w w2 : List String}
    (h : scanCancel F w = .ok (some w2)) : reduceLoop F w = reduceLoop F w2 := by
  conv_lhs => rw [reduceLoop]
  split
  · rename_i e2 heq
    rw [h] at heq
    simp at heq
  · rename_i heq
    rw [h] at heq
    simp at heq
  · rename_i w3 heq
    rw [h] at heq
    simp at heq
    rw [heq]

/-- `power(w, 0)` returns the identity word, for any value. -/
theorem power_zero (F : PyFreeGroup) (v : PyVal) : F.power v 0 = .ok (.word [F.identity]) := by
  unfold PyFreeGroup.power
  rw [dif_neg (by omega : ¬(0:Int) < 0), dif_pos rfl]

/-- `power(w, 1)` returns its argument unchanged. -/
theorem power_one (F : PyFreeGroup) (v : PyVal) : F.power v 1 = .ok v := by
  unfold PyFreeGroup.power
  rw [dif_neg (by omega : ¬(1:Int) < 0), dif_neg (by omega : ¬(1:Int) = 0), dif_pos rfl]

/-- `power(w, 2)` is the square by concatenation. -/
theorem power_two (F : PyFreeGroup) (w : List String) :
    F.power (.word w) 2 = .ok (.word (w ++ w)) := by
  unfold PyFreeGroup.power
  rw [dif_neg (by omega : ¬(2:Int) < 0), dif_neg (by omega : ¬(2:Int) = 0),
    dif_neg (by omega : ¬(2:Int) = 1)]
  rw [(by decide : (2:Int) / 2 = 1), (by decide : (2:Int) - 1 = 1), power_one]
  rfl

/-- Unfolding `power` at a negative exponent: the word is inverted first. -/
theorem power_neg_unfold (F : PyFreeGroup) (w : List String) (n : Int) (h : n < 0) :
    F.power (.word w) n =
      match F.inverseW w with
      | .ok vinv => F.power vinv (-n)
      | .error e => .error e := by
  conv_lhs => unfold PyFreeGroup.power
  rw [dif_pos h]

/-- Concatenation law for the literal repetition of a word. -/
theorem wordRepeat_add (a b : Nat) (w : List String) :
    wordRepeat (a + b) w = wordRepeat a w ++ wordRepeat b w := by
  induction a with
  | zero => simp [wordRepeat]
  | succ k ih =>
    rw [Nat.succ_add]
    simp [wordRepeat, ih]

/-- For every positive exponent `n`, `power(w, n)` is exactly the literal
`n`-fold repetition of `w` (no cancellation is performed), by strong
induction following the halving recursion of the source. -/
theorem power_nat_rep (F : PyFreeGroup) (w : List String) :
    ∀ n : Nat, 1 ≤ n → F.power (.word w) (n : Int) = .ok (.word (wordRepeat n w)) := by
  intro n
  induction n using Nat.strong_induction_on with
  | _ n ih =>
    intro h1
    by_cases hn1 : n = 1
    · subst hn1
      rw [(by norm_num : ((1:Nat) : Int) = 1), power_one]
      simp [wordRepeat]
    · have hn2 : 2 ≤ n := by omega
      conv_lhs => unfold PyFreeGroup.power
      rw [dif_neg (by omega : ¬(n : Int) < 0), dif_neg (by omega : ¬(n : Int) = 0),
        dif_neg (by omega : ¬(n : Int) = 1)]
      have e2 : (n : Int) - (n : Int) / 2 = ((n - n / 2 : Nat) : Int) := by omega
      have e1 : (n : Int) / 2 = ((n / 2 : Nat) : Int) := by omega
      rw [e2]
      rw [e1]
      rw [ih (n / 2) (by omega) (by omega), ih (n - n / 2) (by omega) (by omega)]
      show Except.ok (PyVal.word (wordRepeat (n / 2) w ++ wordRepeat (n - n / 2) w)) = _
      rw [← wordRepeat_add]
      have hsum : n / 2 + (n - n / 2) = n := by omega
      rw [hsum]

/-- For a length-one word whose symbol is in the group's inverse
dictionary, `freely_reduced(F, w + power(w, -1))` cancels to the
identity. -/
theorem negPowCancel_single (F : PyFreeGroup) (x y : String)
    (h : F.invLookup x = some y) : negPowCancel F [x] = .ok [F.identity] := by
  unfold negPowCancel
  rw [power_neg_unfold F [x] (-1) (by omega)]
  have hi : F.inverseW [x] = .ok (.word [y]) := by
    simp [PyFreeGroup.inverseW, h]
  rw [hi]
  show (match F.power (.word [y]) 1 with
    | .error e => (.error e : Except PyErr (List String))
    | .ok (.intv _) => .error .attributeError
    | .ok (.word p) => freelyReduced F ([x] ++ p)) = .ok [F.identity]
  rw [power_one]
  show freelyReduced F [x, y] = .ok [F.identity]
  have hsc : scanCancel F [x, y] = .ok (some []) := by
    simp [scanCancel, h]
  unfold freelyReduced
  rw [reduceLoop_some hsc, reduceLoop_none (by simp [scanCancel] : scanCancel F [] = .ok none)]
  rfl

/-- C1: the claim states that `nielsen_reduced(F, U)` returns a
Nielsen-reduced set generating the same subgroup as `U`.  The code cannot:
Phase 1 (nielsen.py line 287) calls `freely_reduced(u)` with one argument
although `freely_reduced(F, word)` takes two, so the call raises
`TypeError` for every non-empty `U` — here evaluated at the valid input
`U = {a}` over the group on `{a, b, c, e}`. -/
theorem nielsen_reduced_crashes : nielsenReduced Fabce ([["a"]]) = .error .typeError := rfl

/-- C2: the claim states that every rewrite of Phases 2 and 3 strictly
decreases the multiset of word lengths, so `nielsen_reduced` terminates
after finitely many rewrites.  In the code the fixpoint loops are never
reached: for every non-empty input the Phase 1 set comprehension raises
`TypeError` (the one-argument call to `freely_reduced`, nielsen.py line
287), so no rewrite is ever performed and the function never returns the
promised set. -/
theorem nielsen_reduced_errors_before_any_rewrite :
    ∀ (F : PyFreeGroup) (U : List (List String)), U ≠ [] →
      nielsenReduced F U = .error .typeError := by
  intro F U h
  cases U with
  | nil => exact absurd rfl h
  | cons u t => rfl

/-- Witness for C2 at the concrete two-element input `{a, bc}`. -/
theorem nielsen_reduced_errors_witness :
    nielsenReduced Fabce ([["a"], ["b", "c"]]) = .error .typeError :=
  nielsen_reduced_errors_before_any_rewrite Fabce ([["a"], ["b", "c"]]) (by decide)

/-- C3: the claim states the anti-homomorphism law
`inverse(a + b) == inverse(b) + inverse(a)` and that the inverse of the
empty word is the identity word.  The code instead raises
`AttributeError` on every word of length at least two (`__reversed__`
yields raw `str` labels, which have no `.label`), and returns the `int`
`0` — not a word at all — on the empty word (`sum` of an empty sequence),
here evaluated at `a + b` and at the empty word over `{a, b, c, e}`. -/
theorem inverse_multiletter_and_empty_eval :
    Fabce.inverseW (["a", "b"]) = .error .attributeError
    ∧ Fabce.inverseW ([]) = .ok (.intv 0) := ⟨rfl, rfl⟩

/-- C4, counterexample: for the non-identity word `w = a + b`, the claimed
law `freely_reduced(F, w + power(w, -1)) == identity` fails — the
expression raises `AttributeError`, because `power(w, -1)` calls the
broken `inverse` on a word of length two. -/
theorem power_neg_cancel_counterexample :
    negPowCancel Fabce (["a", "b"]) = .error .attributeError := by
  unfold negPowCancel
  rw [power_neg_unfold Fabce (["a", "b"]) (-1) (by omega)]
  rfl

/-- C4 (amended): the power laws that do hold.  `power(w, 0)` is the
identity, `power(w, 1) == w`, `power(w, 2) == w + w`, for every positive
`n` the result is the literal `n`-fold repetition of `w`, and the
negative-power cancellation `freely_reduced(F, w + power(w, -1)) ==
identity` holds for length-one words whose symbol is in the group's
inverse dictionary (it fails with `AttributeError` for longer words, and
produces an `int` for the empty word, since `inverse` is broken there). -/
theorem power_laws_amended (F : PyFreeGroup) (w : List String) :
    F.power (.word w) 0 = .ok (.word [F.identity])
    ∧ F.power (.word w) 1 = .ok (.word w)
    ∧ F.power (.word w) 2 = .ok (.word (w ++ w))
    ∧ (∀ n : Nat, 1 ≤ n → F.power (.word w) (n : Int) = .ok (.word (wordRepeat n w)))
    ∧ (∀ x y : String, F.invLookup x = some y → negPowCancel F [x] = .ok [F.identity]) :=
  ⟨power_zero F _, power_one F _, power_two F w, power_nat_rep F w,
   fun x y h => negPowCancel_single F x y h⟩

/-- Witness for C4 at concrete inputs: the cube of `ab`, and the
negative-power cancellation for the generator `b`. -/
theorem power_laws_amended_witness :
    Fabce.power (.word ["a", "b"]) ((3 : Nat) : Int) = .ok (.word (wordRepeat 3 ["a", "b"]))
    ∧ negPowCancel Fabce (["b"]) = .ok [Fabce.identity] :=
  ⟨(power_laws_amended Fabce ["a", "b"]).2.2.2.1 3 (by omega),
   (power_laws_amended Fabce ["a", "b"]).2.2.2.2 ("b") ("b^{-1}") (by rfl)⟩

/-- C5: the claim states that `freely_reduced` is idempotent for every
word including the identity.  It is not: the identity-stripping pass runs
only after the cancellation loop, so for `w = a · e · a⁻¹` the first
application returns `a · a⁻¹` (which still contains an adjacent inverse
pair) while the second application returns the identity; moreover on the
identity word itself `freely_reduced` raises `TypeError` (through
`strip_identities`), so even the inner application of the claimed equation
fails there. -/
theorem freely_reduced_not_idempotent_eval :
    freelyReduced Fabce (["a", "e", "a^{-1}"]) = .ok (["a", "a^{-1}"])
    ∧ freelyReduced Fabce (["a", "a^{-1}"]) = .ok (["e"])
    ∧ freelyReduced Fabce (["e"]) = .error .typeError := by
  refine ⟨?_, ?_, ?_⟩
  · unfold freelyReduced
    rw [reduceLoop_none (by rfl : scanCancel Fabce (["a", "e", "a^{-1}"]) = .ok none)]
    rfl
  · unfold freelyReduced
    rw [reduceLoop_some (by rfl : scanCancel Fabce (["a", "a^{-1}"]) = .ok (some [])),
      reduceLoop_none (by rfl : scanCancel Fabce ([]) = .ok none)]
    rfl
  · unfold freelyReduced
    rw [reduceLoop_none (by rfl : scanCancel Fabce (["e"]) = .ok none)]
    rfl

/-- C6: the claim (and the source's own docstring and test) state that
`strip_identities` returns the identity word when every symbol of the
input is the identity.  Instead `functools.reduce` is applied with no
initial value to an empty sequence and raises `TypeError`; for words with
at least one non-identity symbol the filtered concatenation is returned
as claimed. -/
theorem strip_identities_identity_eval :
    stripIdentities Fabce (["e"]) = .error .typeError
    ∧ stripIdentities Fabce (["e", "a", "e", "b"]) = .ok (["a", "b"]) := ⟨rfl, rfl⟩

/-- C7: the claim states that `startswith`/`endswith` compare label
sequences and return a boolean.  Every call site passes a `Word` as the
prefix/suffix argument, and the implementation forwards that `Word` to
`str.startswith`/`str.endswith` on the joined label string, which raises
`TypeError` for any non-`str` argument — here evaluated at the inputs of
the repository's own test (`abc` against `ab` and `bc`). -/
theorem startswith_endswith_eval :
    wordStartswith (["a", "b", "c"]) (.pyword ["a", "b"]) = .error .typeError
    ∧ wordEndswith (["a", "b", "c"]) (.pyword ["b", "c"]) = .error .typeError := ⟨rfl, rfl⟩

/-- C8, counterexample: calling `nielsen_reduced` on a set whose elements
all freely reduce to the identity does not raise the spec's
`PreconditionViolation` — no code path produces that error kind. -/
theorem nielsen_all_identity_not_precondition_error :
    nielsenReduced Fabce ([["e"], ["e", "e"]]) ≠ .error .preconditionViolation := by decide

/-- C8 (amended): `nielsen_reduced` performs no precondition validation.
On an all-identity input it fails with the same `TypeError` that every
non-empty input triggers (the one-argument call to `freely_reduced` in
Phase 1), not with a precondition error; an empty input returns the empty
set without any error. -/
theorem nielsen_no_precondition_check :
    nielsenReduced Fabce ([["e"], ["e", "e"]]) = .error .typeError
    ∧ nielsenReduced Fabce ([]) = .ok [] := ⟨rfl, rfl⟩

/-- C9, counterexample: `halves` of the odd-length word `abc` does not
fail — it returns the floor-midpoint split `(a, bc)`, whose parts have
different lengths. -/
theorem halves_odd_counterexample :
    halves (["a", "b", "c"]) = ((["a"]), (["b", "c"]))
    ∧ (halves (["a", "b", "c"])).1.length ≠ (halves (["a", "b", "c"])).2.length := by decide

/-- C9 (amended): `halves` is total — it splits any word at position
`len // 2` with no error; the two parts reassemble to the word, the first
part has length `len // 2`, and the parts have equal length exactly when
the word's length is even (so the equal-length midpoint split happens only
for even-length words, while odd-length words are split unevenly rather
than rejected). -/
theorem halves_amended : ∀ w : List String,
    (halves w).1 ++ (halves w).2 = w
    ∧ (halves w).1.length = w.length / 2
    ∧ ((halves w).1.length = (halves w).2.length ↔ w.length % 2 = 0) := by
  intro w
  refine ⟨List.take_append_drop _ _, ?_, ?_⟩
  · simp [halves]
    omega
  · simp [halves]
    omega

/-- C10: indexing a word with an `int` position that is in range
(`-len ≤ i < len`) returns a length-one word, and any other `int`
position raises `IndexError` rather than returning a word. -/
theorem getitem_int_spec (w : List String) (i : Int) :
    ((-(w.length : Int) ≤ i ∧ i < (w.length : Int)) → ∃ s, wordGetItem w i = .ok [s])
    ∧ (¬(-(w.length : Int) ≤ i ∧ i < (w.length : Int)) → wordGetItem w i = .error .indexError) := by
  constructor
  · intro hin
    unfold wordGetItem
    rw [if_neg (by omega)]
    have hj : ((if i < 0 then i + (w.length : Int) else i).toNat) < w.length := by
      by_cases hi : i < 0
      · rw [if_pos hi]; omega
      · rw [if_neg hi]; omega
    rw [List.getElem?_eq_getElem hj]
    exact ⟨_, rfl⟩
  · intro hout
    unfold wordGetItem
    rw [if_pos (by omega)]

/-- Witness for C10 at the concrete in-range negative index `-1` of the
word `ab`. -/
theorem getitem_int_witness : ∃ s, wordGetItem (["a", "b"]) (-1) = .ok [s] :=
  (getitem_int_spec (["a", "b"]) (-1)).1 (by decide)
